import Mathlib

/-!
Shallow embedding of the recycle convergence engine of `biosteam/_system.py`
and of the multi-stage equilibrium linear solvers of
`biosteam/units/phase_equilibrium.py`.  Machine floats are modelled as exact
rationals; numpy arrays are modelled as lists, or as functions from the
stage index for the tridiagonal solvers.
-/

namespace BioSteam

/-- Maximum of a list of rationals, mirroring `numpy.ndarray.max`; the
embedding only ever applies it to nonempty lists (numpy raises on an empty
array), and on `[]` it returns the junk value `0`. -/
def listMax : List ℚ → ℚ
  | [] => 0
  | [x] => x
  | x :: y :: ys => max x (listMax (y :: ys))

/-! ## System._iter_run error model (`_system.py`, lines 1170-1219) -/

/-- Noise floor `1e-16` from `System._iter_run`: components whose absolute
flow difference is at or below it are dropped from the error vectors. -/
def mol_noise_floor : ℚ := 1 / 10000000000000000

/-- Gate `1e-12` from `System._iter_run`: the relative molar error is only
computed when the absolute molar error exceeds it, else taken as zero. -/
def rmol_gate : ℚ := 1 / 1000000000000

/-- Pairs `(mol[i], mol_new[i])` selected by `positive_index` in
`System._iter_run`; numpy boolean indexing by `mol_errors > 1e-16` is
modelled by filtering the zipped flow vectors on the same condition. -/
def positivePairs (mol molNew : List ℚ) : List (ℚ × ℚ) :=
  (mol.zip molNew).filter fun p => decide (mol_noise_floor < |p.1 - p.2|)

/-- Absolute molar error `self._mol_error` of `System._iter_run`: maximum of
`np.abs(mol - mol_new)` restricted to `positive_index`, and `0.` when that
restriction is empty. -/
def mol_error (mol molNew : List ℚ) : ℚ :=
  if positivePairs mol molNew = [] then 0
  else listMax ((positivePairs mol molNew).map fun p => |p.1 - p.2|)

/-- Relative molar error `self._rmol_error` of `System._iter_run`: computed
as `(mol_errors / np.maximum.reduce([np.abs(mol), np.abs(mol_new)])).max()`
over `positive_index`, but only when `mol_error > 1e-12`; zero otherwise. -/
def rmol_error (mol molNew : List ℚ) : ℚ :=
  if positivePairs mol molNew = [] then 0
  else if rmol_gate < mol_error mol molNew then
    listMax ((positivePairs mol molNew).map fun p => |p.1 - p.2| / max |p.1| |p.2|)
  else 0

/-- Absolute temperature error `self._T_error` of `System._iter_run`:
`np.abs(T - T_new).max()`, with no noise-floor filtering. -/
def T_error (T Tnew : List ℚ) : ℚ :=
  listMax ((T.zip Tnew).map fun p => |p.1 - p.2|)

/-- Relative temperature error `self._rT_error` of `System._iter_run`:
`(T_errors / T).max()`, dividing by the previous temperatures, computed
unconditionally. -/
def rT_error (T Tnew : List ℚ) : ℚ :=
  listMax ((T.zip Tnew).map fun p => |p.1 - p.2| / p.1)

/-- Written from the spec sentence "Apply the same pattern to temperature",
not from the code: the absolute temperature error computed with the molar
pattern, for comparison with the code's `T_error`. -/
def T_error_specPattern (T Tnew : List ℚ) : ℚ := mol_error T Tnew

/-- Written from the spec sentence "Apply the same pattern to temperature",
not from the code: the relative temperature error computed with the molar
pattern, for comparison with the code's `rT_error`. -/
def rT_error_specPattern (T Tnew : List ℚ) : ℚ := rmol_error T Tnew

/-- Convergence-relevant attributes of a `System`: iteration budget, strict
flag and the four tolerances (slots `maxiter`, `strict_convergence`,
`molar_tolerance`, `relative_molar_tolerance`, `temperature_tolerance`,
`relative_temperature_tolerance`). -/
structure IterState where
  maxiter : ℕ
  strict_convergence : Bool
  molar_tolerance : ℚ
  relative_molar_tolerance : ℚ
  temperature_tolerance : ℚ
  relative_temperature_tolerance : ℚ
deriving DecidableEq

/-- Class attribute `System.default_maxiter`. -/
def default_maxiter : ℕ := 200

/-- Class attribute `System.default_molar_tolerance` (kmol/hr). -/
def default_molar_tolerance : ℚ := 1

/-- Class attribute `System.default_relative_molar_tolerance`. -/
def default_relative_molar_tolerance : ℚ := 1 / 100

/-- Class attribute `System.default_temperature_tolerance` (K). -/
def default_temperature_tolerance : ℚ := 1 / 10

/-- Class attribute `System.default_relative_temperature_tolerance`. -/
def default_relative_temperature_tolerance : ℚ := 1 / 1000

/-- Class attribute `System.strict_convergence`, the default strictness. -/
def System_strict_convergence : Bool := true

/-- Negation of the convergence test at the end of `System._iter_run`:
`not_converged = not ((mol_error < molar_tolerance or rmol_error <
relative_molar_tolerance) and (T_error < temperature_tolerance or
rT_error < relative_temperature_tolerance))`. -/
def not_converged (s : IterState) (mol molNew T Tnew : List ℚ) : Prop :=
  ¬((mol_error mol molNew < s.molar_tolerance ∨
      rmol_error mol molNew < s.relative_molar_tolerance) ∧
    (T_error T Tnew < s.temperature_tolerance ∨
      rT_error T Tnew < s.relative_temperature_tolerance))

instance (s : IterState) (mol molNew T Tnew : List ℚ) :
    Decidable (not_converged s mol molNew T Tnew) := by
  unfold not_converged
  infer_instance

/-! ## Recycle feasibility (`_system.py`, lines 68-72) -/

/-- Modelled from the spec: the predicate `thermosteam.functional.infeasible`
used by `check_recycle_feasibility` is not under `src/`.  Per the spec a
recycle flow vector is infeasible when some component flow is negative
beyond a small numerical tolerance; the spec fixes only that `-1e-14` lies
inside the noise floor while `-1.0` lies beyond it, and the tolerance is
taken here as `1e-12`. -/
def infeasible_flow_tolerance : ℚ := 1 / 1000000000000

/-- Modelled from the spec: `fn.infeasible(material)` is true when some
entry is negative beyond `infeasible_flow_tolerance`. -/
def infeasible (l : List ℚ) : Bool :=
  l.any fun x => decide (x < -infeasible_flow_tolerance)

/-- In-place update `material[material < 0.] = 0.` of
`check_recycle_feasibility`: every negative entry is set to exactly zero. -/
def clip_negative_flows (l : List ℚ) : List ℚ :=
  l.map fun x => if x < 0 then 0 else x

/-- Function `check_recycle_feasibility` of `_system.py`: raise
`InfeasibleRegion` (modelled as `none`) when the material is infeasible,
else clip the negative entries to zero. -/
def check_recycle_feasibility (l : List ℚ) : Option (List ℚ) :=
  if infeasible l then none else some (clip_negative_flows l)

/-- Result of one call of `System._iter_run`: the raised `InfeasibleRegion`,
the raised `RuntimeError` on exhausting `maxiter` in strict mode, or the new
recycle flows together with the `not_converged` flag. -/
inductive IterOutcome where
  | infeasibleRegion
  | runtimeError
  | iterate (molNew : List ℚ) (not_conv : Bool)
deriving DecidableEq

/-- Method `System._iter_run` on the recycle flow vector `mol`, with `iter`
the value of `self._iter` on entry.  The new flows `molNew` and the
temperature vectors `T`, `Tnew` read back around the opaque `self._run()`
path replay are passed as parameters; the errors are measured against the
clipped input flows, exactly as the mutating `check_recycle_feasibility`
leaves them.  Returns the outcome and the new value of `self._iter`. -/
def iter_run (s : IterState) (iter : ℕ) (mol molNew T Tnew : List ℚ) :
    IterOutcome × ℕ :=
  if infeasible mol then (.infeasibleRegion, iter)
  else
    let molc := clip_negative_flows mol
    let nc := decide (not_converged s molc molNew T Tnew)
    if nc && decide (s.maxiter ≤ iter + 1) then
      if s.strict_convergence then (.runtimeError, iter + 1)
      else (.iterate molNew false, iter + 1)
    else (.iterate molNew nc, iter + 1)

/-! ## System.set_tolerance (`_system.py`, lines 640-666) -/

/-- Python truthiness of an optional float argument: `None` and `0.0` are
falsy. -/
def truthyQ : Option ℚ → Bool
  | none => false
  | some v => decide (v ≠ 0)

/-- Python truthiness of an optional integer argument: `None` and `0` are
falsy (repeat counts and iteration budgets are modelled as naturals). -/
def truthyN : Option ℕ → Bool
  | none => false
  | some n => decide (n ≠ 0)

/-- Method `System.set_tolerance(mol, rmol, T, rT, subsystems, maxiter)`
restricted to its effect on the fields of `self`; the `subsystems` recursion
only touches other `System` objects and is omitted.  Note that the `rT`
branch assigns `temperature_tolerance`, exactly as the code does. -/
def set_tolerance (s : IterState) (mol rmol T rT : Option ℚ)
    (maxiter : Option ℕ) : IterState :=
  let s1 := if truthyQ mol then { s with molar_tolerance := mol.getD 0 } else s
  let s2 := if truthyQ rmol then
    { s1 with relative_molar_tolerance := rmol.getD 0 } else s1
  let s3 := if truthyQ T then
    { s2 with temperature_tolerance := T.getD 0 } else s2
  let s4 := if truthyQ rT then
    { s3 with temperature_tolerance := rT.getD 0 } else s3
  if truthyN maxiter then { s4 with maxiter := maxiter.getD 0 } else s4

/-! ## System.recycle / System.N_runs setters (`_system.py`, 1008-1033) -/

/-- Valid value stored in `System._recycle`: a single `Stream` or a set of
`Stream` objects (which may be empty, and an empty set is falsy). -/
inductive RecycleVal where
  | stream (id : ℕ)
  | streams (ids : List ℕ)
deriving DecidableEq

/-- Python truthiness of `self._recycle`: `None` and an empty stream set are
falsy; a `Stream` or a nonempty set is truthy. -/
def recycle_truthy : Option RecycleVal → Bool
  | none => false
  | some (.stream _) => true
  | some (.streams ids) => !ids.isEmpty

/-- Slots `_recycle` and `_N_runs` of a `System`. -/
structure RecycleConfig where
  recycle : Option RecycleVal
  N_runs : Option ℕ
deriving DecidableEq

/-- Setter `System.recycle` on its valid arguments (`None`, a `Stream`, or
an iterable of `Stream` objects): it first sets `self._N_runs = None` and
then stores the recycle value. -/
def set_recycle (s : RecycleConfig) (r : Option RecycleVal) : RecycleConfig :=
  { s with N_runs := none, recycle := r }

/-- Setter `System.N_runs`: `if N_runs: self._recycle = None` followed by
`self._N_runs = N_runs`. -/
def set_N_runs (s : RecycleConfig) (n : Option ℕ) : RecycleConfig :=
  let s1 := if truthyN n then { s with recycle := none } else s
  { s1 with N_runs := n }

/-- One assignment through either of the two property setters. -/
inductive RecycleSetterCall where
  | setRecycleCall (r : Option RecycleVal)
  | setNRunsCall (n : Option ℕ)
deriving DecidableEq

/-- Apply one setter call to the `System` slots. -/
def apply_setter (s : RecycleConfig) : RecycleSetterCall → RecycleConfig
  | .setRecycleCall r => set_recycle s r
  | .setNRunsCall n => set_N_runs s n

/-- Apply a sequence of setter calls, in order. -/
def apply_setters (s : RecycleConfig) (calls : List RecycleSetterCall) :
    RecycleConfig :=
  calls.foldl apply_setter s

/-- At most one of `_recycle` and `_N_runs` holds a truthy value. -/
def at_most_one_set (s : RecycleConfig) : Prop :=
  ¬(recycle_truthy s.recycle = true ∧ truthyN s.N_runs = true)

/-! ## System._converge dispatch (`_system.py`, lines 1318-1324) -/

/-- Converge method selected on a `System` (default Aitken). -/
inductive ConvergeMethod where
  | fixedpoint
  | wegstein
  | aitken
deriving DecidableEq

/-- Observable action taken by `System._converge`: one plain replay of the
path (`self._run()`), or one invocation of the selected recycle convergence
method (`self._converge_method()`, which iterates `_iter_run`). -/
inductive ConvergeStep where
  | runPath
  | convergeRecycle (m : ConvergeMethod)
deriving DecidableEq

/-- Attributes of a `System` consulted by `System._converge`. -/
structure ConvergeConfig where
  recycle : Option RecycleVal
  N_runs : Option ℕ
  converge_method : ConvergeMethod
deriving DecidableEq

/-- Method `System._converge` as the sequence of actions it performs:
`if self._N_runs: for i in range(self.N_runs): self._run()`,
`elif self._recycle: self._converge_method()`, `else: self._run()`. -/
def System_converge (s : ConvergeConfig) : List ConvergeStep :=
  if truthyN s.N_runs then List.replicate (s.N_runs.getD 0) .runPath
  else if recycle_truthy s.recycle then [.convergeRecycle s.converge_method]
  else [.runPath]

/-! ## Tridiagonal solvers (`phase_equilibrium.py`, lines 2297-2352) -/

/-- Values of the diagonal `b` after the forward elimination of
`solve_TDMA`: `b[i+1] = b[i+1] - (a[i] / b[i]) * c[i]`, the in-place update
being modelled by this recurrence (index `i` of `a` and `c` is the
sub/super-diagonal entry of row `i+1` and `i` respectively, as the `a` array
of the code starts from `a1`). -/
def fwdB (a b c : ℕ → ℚ) : ℕ → ℚ
  | 0 => b 0
  | i + 1 => b (i + 1) - a i / fwdB a b c i * c i

/-- Values of the right-hand side `d` after the forward elimination of
`solve_TDMA`: `d[i+1] = d[i+1] - (a[i] / b[i]) * d[i]`. -/
def fwdD (a b c d : ℕ → ℚ) : ℕ → ℚ
  | 0 => d 0
  | i + 1 => d (i + 1) - a i / fwdB a b c i * fwdD a b c d i

/-- Back substitution of `solve_TDMA`, indexed by the distance `k = n - i`
from the last row: `b[n] = d[n] / b[n]` and then
`b[i] = (d[i] - c[i] * b[i+1]) / b[i]` for `i = n-1, ..., 0`, on the
forward-eliminated arrays. -/
def backXAux (a b c d : ℕ → ℚ) (n : ℕ) : ℕ → ℚ
  | 0 => fwdD a b c d n / fwdB a b c n
  | k + 1 =>
    (fwdD a b c d (n - (k + 1)) - c (n - (k + 1)) * backXAux a b c d n k) /
      fwdB a b c (n - (k + 1))

/-- Function `solve_TDMA(a, b, c, d)` of `phase_equilibrium.py` on a system
of `n + 1` equations (the code sets `n = d.shape[0] - 1`): the entry `i` of
the returned array.  The in-place mutation of `b` and `d` is modelled by the
`fwdB`/`fwdD`/`backXAux` recurrences over the input arrays. -/
def solve_TDMA (a b c d : ℕ → ℚ) (n i : ℕ) : ℚ :=
  backXAux a b c d n (n - i)

/-- Row `i` of the tridiagonal system of `n + 1` equations with sub-diagonal
`a` (starting from `a1`), diagonal `b`, super-diagonal `c` and right-hand
side `d`, out-of-range terms taken as zero. -/
def rowEq (a b c d : ℕ → ℚ) (n : ℕ) (x : ℕ → ℚ) (i : ℕ) : Prop :=
  (if i = 0 then 0 else a (i - 1) * x (i - 1)) + b i * x i +
    (if i = n then 0 else c i * x (i + 1)) = d i

/-- In-place update `v[v < 0] = 0` applied by `solve_TDMA_2D_careful` to
each back-substituted value. -/
def clipNeg (v : ℚ) : ℚ := if v < 0 then 0 else v

/-- Back substitution of `solve_TDMA_2D_careful`, which clips every computed
value at zero before storing it. -/
def backXCarefulAux (a b c d : ℕ → ℚ) (n : ℕ) : ℕ → ℚ
  | 0 => clipNeg (fwdD a b c d n / fwdB a b c n)
  | k + 1 =>
    clipNeg ((fwdD a b c d (n - (k + 1)) -
        c (n - (k + 1)) * backXCarefulAux a b c d n k) /
      fwdB a b c (n - (k + 1)))

/-- Function `solve_TDMA_2D_careful(a, b, c, d, ab_fallback)` of
`phase_equilibrium.py`, embedded per component (its 2D arrays are processed
componentwise) and on its non-degenerate domain: over exact rationals the
masks `inf_mask` and `zero_mask` taken on the eliminated diagonal (IEEE
`inf` values and zero pivots) are empty, `ok_mask` selects everything, so
the forward elimination `m = a[i] / b[i]` coincides with `solve_TDMA` and
the `ab_fallback` argument (consulted only on degenerate rows) is unused;
the back substitution stores `clipNeg` of each computed value. -/
def solve_TDMA_2D_careful (a b c d ab_fallback : ℕ → ℚ) (n i : ℕ) : ℚ :=
  backXCarefulAux a b c d n (n - i)

/-! ## MultiStageEquilibrium.update_energy_balance_temperatures
(`phase_equilibrium.py`, lines 1991-1999) -/

/-- Temperatures owned by one stage: the partition temperature and the
temperatures of the partition's outlet streams. -/
structure StageTemperature where
  partition_T : ℚ
  outlet_Ts : List ℚ
deriving DecidableEq

/-- Clamp applied in place to the temperature departures:
`dTs[dTs > 15] = 15` followed by `dTs[dTs < -15] = -15`. -/
def clamp_dT (x : ℚ) : ℚ :=
  let x1 := if 15 < x then 15 else x
  if x1 < -15 then -15 else x1

/-- Method `MultiStageEquilibrium.update_energy_balance_temperatures`, given
the departures `dTs` returned by
`get_energy_balance_temperature_departures`: clamp the departures, then for
each stage add its departure to the partition temperature and to each
outlet temperature (`zip` truncates to the shorter sequence, as in
Python). -/
def update_energy_balance_temperatures (stages : List StageTemperature)
    (dTs : List ℚ) : List StageTemperature :=
  (stages.zip (dTs.map clamp_dT)).map fun p =>
    { partition_T := p.1.partition_T + p.2,
      outlet_Ts := p.1.outlet_Ts.map fun t => t + p.2 }

/-! ## MultiStageEquilibrium._run retry (`phase_equilibrium.py`, 1632-1640) -/

/-- Method `MultiStageEquilibrium._run` around its `try/except` retry, for
inlets that are not all empty.  The body (hot start, iteration strategy and
overall mass-balance correction) is abstracted as a function of the
`use_cache` flag returning `some e` when an exception escapes it.  The
`except` branch with `use_cache` true sets `use_cache = False`, recursively
calls `_run`, and restores `use_cache = True` in a `finally`; that recursive
call is unfolded one level here, which is exact because it runs with
`use_cache = False`, where the body's exception is re-raised immediately.
Returns the escaping exception (if any) and the final `use_cache` flag. -/
def MSE_run {ε : Type} (body : Bool → Option ε) (use_cache : Bool) :
    Option ε × Bool :=
  match body use_cache with
  | none => (none, use_cache)
  | some e =>
    if use_cache then
      match body false with
      | none => (none, true)
      | some e2 => (some e2, true)
    else (some e, use_cache)

/-! ## Helper lemmas -/

theorem listMax_mem : ∀ l : List ℚ, l ≠ [] → listMax l ∈ l
  | [x], _ => by simp [listMax]
  | x :: y :: ys, _ => by
    rw [listMax]
    rcases le_total x (listMax (y :: ys)) with h | h
    · rw [max_eq_right h]
      exact List.mem_cons_of_mem x (listMax_mem (y :: ys) (by simp))
    · rw [max_eq_left h]
      exact List.mem_cons_self x _

theorem le_listMax : ∀ l : List ℚ, ∀ x ∈ l, x ≤ listMax l
  | [x], z, hz => by
    simp only [List.mem_singleton] at hz
    simp [listMax, hz]
  | x :: y :: ys, z, hz => by
    rw [listMax]
    rcases List.mem_cons.1 hz with h | h
    · exact h ▸ le_max_left _ _
    · exact le_trans (le_listMax (y :: ys) z h) (le_max_right _ _)

/-! ## C8: MultiStageEquilibrium._run retry -/

/-- C8: if an exception escapes the body of `MultiStageEquilibrium._run`
while `use_cache` is true, the computation is retried exactly once with
`use_cache` false (the result is exactly the retry's outcome) and
`use_cache` is restored to true regardless of outcome; when `use_cache` is
false an exception propagates immediately with no retry. -/
theorem C8_theorem {ε : Type} (body : Bool → Option ε) :
    (∀ e, body true = some e → MSE_run body true = (body false, true)) ∧
    (∀ e, body false = some e → MSE_run body false = (some e, false)) ∧
    (MSE_run body true).2 = true := by
  refine ⟨fun e he => ?_, fun e he => ?_, ?_⟩
  · unfold MSE_run
    rw [he]
    cases hf : body false <;> simp [hf]
  · unfold MSE_run
    rw [he]
    simp
  · unfold MSE_run
    cases ht : body true with
    | none => simp
    | some e => cases hf : body false <;> simp [hf]

/-- C8 witness: a body that fails with cache and succeeds without it is
retried once successfully; a body failing without cache propagates. -/
theorem C8_witness :
    MSE_run (fun b => if b then some 0 else none) true = (none, true) ∧
    MSE_run (fun _ : Bool => some 1) false = (some 1, false) := by
  constructor
  · exact (C8_theorem (fun b => if b then some 0 else none)).1 0 rfl
  · exact (C8_theorem (fun _ : Bool => some 1)).2.1 1 rfl

/-! ## C9: System.set_tolerance -/

/-- C9: a nonzero `rT` argument of `System.set_tolerance` is assigned to the
absolute `temperature_tolerance` field, and the
`relative_temperature_tolerance` field is unchanged by every call. -/
theorem C9_theorem (s : IterState) (mol rmol T rT : Option ℚ)
    (maxiter : Option ℕ) :
    (∀ v : ℚ, v ≠ 0 → rT = some v →
      (set_tolerance s mol rmol T rT maxiter).temperature_tolerance = v) ∧
    (set_tolerance s mol rmol T rT maxiter).relative_temperature_tolerance =
      s.relative_temperature_tolerance := by
  constructor
  · intro v hv hrT
    subst hrT
    have h4 : truthyQ (some v) = true := by simp [truthyQ, hv]
    simp only [set_tolerance, h4, if_true, Option.getD_some]
    split_ifs <;> rfl
  · unfold set_tolerance
    split_ifs <;> rfl

/-- C9 witness: setting `rT = 0.05` on the default tolerances moves the
absolute temperature tolerance to `0.05` and leaves the relative one at its
prior value. -/
theorem C9_witness :
    (set_tolerance
      ⟨200, true, 1, 1 / 100, 1 / 10, 1 / 1000⟩
      none none none (some (1 / 20)) none).temperature_tolerance = 1 / 20 ∧
    (set_tolerance
      ⟨200, true, 1, 1 / 100, 1 / 10, 1 / 1000⟩
      none none none (some (1 / 20)) none).relative_temperature_tolerance =
      1 / 1000 := by
  constructor
  · exact (C9_theorem ⟨200, true, 1, 1 / 100, 1 / 10, 1 / 1000⟩
      none none none (some (1 / 20)) none).1 (1 / 20) (by norm_num) rfl
  · exact (C9_theorem ⟨200, true, 1, 1 / 100, 1 / 10, 1 / 1000⟩
      none none none (some (1 / 20)) none).2

/-! ## C10: recycle / N_runs mutual exclusion -/

theorem apply_setter_at_most_one (s : RecycleConfig)
    (call : RecycleSetterCall) : at_most_one_set (apply_setter s call) := by
  cases call with
  | setRecycleCall r => simp [apply_setter, set_recycle, at_most_one_set, truthyN]
  | setNRunsCall n =>
    by_cases h : truthyN n = true
    · simp [apply_setter, set_N_runs, h, at_most_one_set, recycle_truthy]
    · simp only [Bool.not_eq_true] at h
      simp [apply_setter, set_N_runs, h, at_most_one_set]

theorem apply_setters_at_most_one :
    ∀ (calls : List RecycleSetterCall), calls ≠ [] →
      ∀ s : RecycleConfig, at_most_one_set (apply_setters s calls)
  | [c], _, s => apply_setter_at_most_one s c
  | c :: c2 :: cs, _, s =>
    apply_setters_at_most_one (c2 :: cs) (by simp) (apply_setter s c)

/-- C10: the recycle setter always clears `_N_runs`, the `N_runs` setter on
a truthy value clears `_recycle`, and after any nonempty sequence of
assignments through the two setters at most one of the two slots holds a
truthy value. -/
theorem C10_theorem :
    (∀ (s : RecycleConfig) (r : Option RecycleVal),
      (set_recycle s r).N_runs = none) ∧
    (∀ (s : RecycleConfig) (n : Option ℕ), truthyN n = true →
      (set_N_runs s n).recycle = none) ∧
    (∀ (s : RecycleConfig) (calls : List RecycleSetterCall), calls ≠ [] →
      at_most_one_set (apply_setters s calls)) := by
  refine ⟨fun s r => rfl, fun s n hn => ?_, fun s calls hc =>
    apply_setters_at_most_one calls hc s⟩
  simp [set_N_runs, hn]

/-- C10 witness: from a state holding both a recycle stream and a repeat
count, one truthy `N_runs` assignment clears the recycle, and the invariant
holds after a concrete nonempty setter sequence. -/
theorem C10_witness :
    (set_N_runs ⟨some (.stream 3), some 5⟩ (some 2)).recycle = none ∧
    at_most_one_set (apply_setters ⟨some (.stream 3), some 5⟩
      [.setNRunsCall (some 2), .setRecycleCall (some (.stream 7))]) := by
  constructor
  · exact C10_theorem.2.1 ⟨some (.stream 3), some 5⟩ (some 2)
      (by simp [truthyN])
  · exact C10_theorem.2.2 ⟨some (.stream 3), some 5⟩
      [.setNRunsCall (some 2), .setRecycleCall (some (.stream 7))] (by simp)

/-! ## C6: System._converge dispatch -/

/-- C6: `System._converge` dispatches in three mutually exclusive ways: a
truthy `_N_runs` replays the path exactly `N_runs` times with no recycle
convergence invocation; otherwise a truthy `_recycle` invokes the selected
converge method once; otherwise the path is run exactly once. -/
theorem C6_theorem (s : ConvergeConfig) :
    (∀ n : ℕ, s.N_runs = some n → n ≠ 0 →
      System_converge s = List.replicate n .runPath ∧
      ∀ m, ConvergeStep.convergeRecycle m ∉ System_converge s) ∧
    (truthyN s.N_runs = false → recycle_truthy s.recycle = true →
      System_converge s = [.convergeRecycle s.converge_method]) ∧
    (truthyN s.N_runs = false → recycle_truthy s.recycle = false →
      System_converge s = [.runPath]) := by
  refine ⟨fun n hn hn0 => ?_, fun h1 h2 => ?_, fun h1 h2 => ?_⟩
  · have ht : truthyN (some n) = true := by simp [truthyN, hn0]
    have he : System_converge s = List.replicate n .runPath := by
      simp [System_converge, hn, ht]
    refine ⟨he, fun m => ?_⟩
    rw [he]
    simp [List.mem_replicate]
  · simp [System_converge, h1, h2]
  · simp [System_converge, h1, h2]

/-- C6 witness: the three dispatch branches at concrete configurations. -/
theorem C6_witness :
    System_converge ⟨some (.stream 1), some 3, .aitken⟩ =
      List.replicate 3 .runPath ∧
    System_converge ⟨some (.stream 1), none, .wegstein⟩ =
      [.convergeRecycle .wegstein] ∧
    System_converge ⟨none, none, .aitken⟩ = [.runPath] := by
  refine ⟨((C6_theorem ⟨some (.stream 1), some 3, .aitken⟩).1 3 rfl
    (by norm_num)).1, ?_, ?_⟩
  · exact (C6_theorem ⟨some (.stream 1), none, .wegstein⟩).2.1
      (by simp [truthyN]) (by simp [recycle_truthy])
  · exact (C6_theorem ⟨none, none, .aitken⟩).2.2
      (by simp [truthyN]) (by simp [recycle_truthy])

/-! ## C7: temperature departures clamped to 15 K -/

/-- C7: every per-stage temperature departure is clamped into `[-15, 15]`
before being added to the stage's partition temperature and to its outlet
temperatures, so no stage temperature changes by more than 15 K in one
call. -/
theorem C7_theorem (stages : List StageTemperature) (dTs : List ℚ) :
    (∀ x : ℚ, -15 ≤ clamp_dT x ∧ clamp_dT x ≤ 15) ∧
    (∀ i (hi : i < (update_energy_balance_temperatures stages dTs).length)
      (hs : i < stages.length) (hd : i < dTs.length),
      (update_energy_balance_temperatures stages dTs).get ⟨i, hi⟩ =
        { partition_T := (stages.get ⟨i, hs⟩).partition_T +
            clamp_dT (dTs.get ⟨i, hd⟩),
          outlet_Ts := (stages.get ⟨i, hs⟩).outlet_Ts.map fun t =>
            t + clamp_dT (dTs.get ⟨i, hd⟩) } ∧
      |((update_energy_balance_temperatures stages dTs).get ⟨i, hi⟩).partition_T -
        (stages.get ⟨i, hs⟩).partition_T| ≤ 15 ∧
      ∀ t ∈ (stages.get ⟨i, hs⟩).outlet_Ts,
        |(t + clamp_dT (dTs.get ⟨i, hd⟩)) - t| ≤ 15) := by
  have hclamp : ∀ x : ℚ, -15 ≤ clamp_dT x ∧ clamp_dT x ≤ 15 := by
    intro x
    simp only [clamp_dT]
    split_ifs <;> constructor <;> linarith
  have habs : ∀ x : ℚ, |clamp_dT x| ≤ 15 := by
    intro x
    rw [abs_le]
    exact hclamp x
  refine ⟨hclamp, fun i hi hs hd => ?_⟩
  have hget : (update_energy_balance_temperatures stages dTs).get ⟨i, hi⟩ =
      { partition_T := (stages.get ⟨i, hs⟩).partition_T +
          clamp_dT (dTs.get ⟨i, hd⟩),
        outlet_Ts := (stages.get ⟨i, hs⟩).outlet_Ts.map fun t =>
          t + clamp_dT (dTs.get ⟨i, hd⟩) } := by
    simp [update_energy_balance_temperatures, List.get_eq_getElem,
      List.getElem_map, List.getElem_zip]
  refine ⟨hget, ?_, ?_⟩
  · rw [hget]
    simpa using habs (dTs.get ⟨i, hd⟩)
  · intro t _
    simpa using habs (dTs.get ⟨i, hd⟩)

/-- C7 witness: a stage at 300 K with outlets at 300 K and 310 K and a
departure of 100 K moves by exactly the clamped 15 K. -/
theorem C7_witness :
    (update_energy_balance_temperatures [⟨300, [300, 310]⟩] [100]).get
      ⟨0, by simp [update_energy_balance_temperatures]⟩ =
      { partition_T := 315, outlet_Ts := [315, 325] } ∧
    |((update_energy_balance_temperatures [⟨300, [300, 310]⟩] [100]).get
      ⟨0, by simp [update_energy_balance_temperatures]⟩).partition_T -
      (300 : ℚ)| ≤ 15 := by
  have h := (C7_theorem [⟨300, [300, 310]⟩] [100]).2 0
    (by simp [update_energy_balance_temperatures]) (by simp) (by simp)
  refine ⟨?_, ?_⟩
  · rw [h.1]
    norm_num [clamp_dT, List.get]
  · have h2 := h.2.1
    simpa [List.get] using h2

/-! ## C3: recycle feasibility guard -/

/-- C3: `check_recycle_feasibility` raises `InfeasibleRegion` exactly when
some flow is negative beyond the numerical tolerance; otherwise it clips
every negative entry to exactly zero, leaves nonnegative entries unchanged,
and raises nothing. -/
theorem C3_theorem (l : List ℚ) :
    ((∃ x ∈ l, x < -infeasible_flow_tolerance) →
      check_recycle_feasibility l = none) ∧
    ((∀ x ∈ l, -infeasible_flow_tolerance ≤ x) →
      ∃ r, check_recycle_feasibility l = some r ∧ r.length = l.length ∧
        ∀ i (hi : i < l.length) (hr : i < r.length),
          (l.get ⟨i, hi⟩ < 0 → r.get ⟨i, hr⟩ = 0) ∧
          (0 ≤ l.get ⟨i, hi⟩ → r.get ⟨i, hr⟩ = l.get ⟨i, hi⟩)) := by
  constructor
  · rintro ⟨x, hx, hlt⟩
    have hinf : infeasible l = true := by
      simp only [infeasible, List.any_eq_true, decide_eq_true_eq]
      exact ⟨x, hx, hlt⟩
    simp [check_recycle_feasibility, hinf]
  · intro hall
    have hinf : infeasible l = false := by
      simp only [infeasible, List.any_eq_false, decide_eq_true_eq]
      intro x hx
      exact not_lt.2 (hall x hx)
    refine ⟨clip_negative_flows l, by simp [check_recycle_feasibility, hinf],
      by simp [clip_negative_flows], fun i hi hr => ⟨fun h => ?_, fun h => ?_⟩⟩
    · rw [List.get_eq_getElem] at h
      simp [clip_negative_flows, List.get_eq_getElem, List.getElem_map, h]
    · rw [List.get_eq_getElem] at h
      simp [clip_negative_flows, List.get_eq_getElem, List.getElem_map,
        not_lt.2 h]

/-- C3 witness: a flow of `-1.0` kmol/hr raises `InfeasibleRegion`, while a
flow of `-1e-14` kmol/hr is within the noise floor and is clipped to
exactly zero without raising. -/
theorem C3_witness :
    check_recycle_feasibility [(-1 : ℚ)] = none ∧
    ∃ r, check_recycle_feasibility [(-1 / 100000000000000 : ℚ), 2] = some r ∧
      r.length = 2 ∧
      ∀ i (hi : i < ([(-1 / 100000000000000 : ℚ), 2]).length)
        (hr : i < r.length),
        (([(-1 / 100000000000000 : ℚ), 2]).get ⟨i, hi⟩ < 0 →
          r.get ⟨i, hr⟩ = 0) ∧
        (0 ≤ ([(-1 / 100000000000000 : ℚ), 2]).get ⟨i, hi⟩ →
          r.get ⟨i, hr⟩ = ([(-1 / 100000000000000 : ℚ), 2]).get ⟨i, hi⟩) := by
  constructor
  · exact (C3_theorem [(-1 : ℚ)]).1
      ⟨-1, by simp, by norm_num [infeasible_flow_tolerance]⟩
  · exact (C3_theorem [(-1 / 100000000000000 : ℚ), 2]).2 (by
      intro x hx
      rcases List.mem_pair.1 hx with rfl | rfl <;>
        norm_num [infeasible_flow_tolerance])

/-! ## C1: iterate error computation and convergence test -/

theorem mem_positivePairs {mol molNew : List ℚ} {p : ℚ × ℚ} :
    p ∈ positivePairs mol molNew ↔
      p ∈ mol.zip molNew ∧ mol_noise_floor < |p.1 - p.2| := by
  simp [positivePairs, List.mem_filter]

theorem listMax_map_le {α : Type} (l : List α) (f : α → ℚ) (x : α)
    (hx : x ∈ l) : f x ≤ listMax (l.map f) :=
  le_listMax _ _ (List.mem_map_of_mem f hx)

theorem listMax_map_attained {α : Type} (l : List α) (f : α → ℚ)
    (h : l ≠ []) : ∃ x ∈ l, listMax (l.map f) = f x := by
  have hm : l.map f ≠ [] := by simpa using h
  obtain ⟨x, hx, he⟩ := List.mem_map.1 (listMax_mem _ hm)
  exact ⟨x, hx, he.symm⟩

/-- C1 counterexample: at previous temperature vector `[1]` and new vector
`[2]` the code's relative temperature error is `1` (it divides by the
previous temperature, with no gating), while the molar pattern that the
claim says is applied to temperature gives `1/2` (it divides by the
entrywise maximum of the two vectors). -/
theorem C1_counterexample :
    rT_error [1] [2] = 1 ∧ rT_error_specPattern [1] [2] = 1 / 2 := by
  constructor
  · norm_num [rT_error, List.zip, List.zipWith, listMax]
  · norm_num [rT_error_specPattern, rmol_error, mol_error, positivePairs,
      mol_noise_floor, rmol_gate, List.zip, List.zipWith, List.filter,
      listMax]

/-- C1 (amended): the absolute flow error is the maximum of
`|mol - mol_new|` over components exceeding the `1e-16` noise floor (zero
when none does); the relative flow error is the maximum of those
differences divided entrywise by `max(|mol|, |mol_new|)`, computed only
when the absolute flow error exceeds `1e-12` and zero otherwise; the
absolute temperature error is the plain maximum of `|T - T_new|` with no
noise-floor filter, and the relative temperature error is always the
maximum of `|T - T_new| / T` (dividing by the previous temperature, with no
gating); the iterate is reported converged exactly when (absolute flow
error below `molar_tolerance` OR relative flow error below
`relative_molar_tolerance`) AND (absolute temperature error below
`temperature_tolerance` OR relative temperature error below
`relative_temperature_tolerance`). -/
theorem C1_theorem (s : IterState) (mol molNew T Tnew : List ℚ) :
    (∀ p ∈ mol.zip molNew, mol_noise_floor < |p.1 - p.2| →
      |p.1 - p.2| ≤ mol_error mol molNew) ∧
    ((∀ p ∈ mol.zip molNew, |p.1 - p.2| ≤ mol_noise_floor) →
      mol_error mol molNew = 0) ∧
    ((∃ p ∈ mol.zip molNew, mol_noise_floor < |p.1 - p.2|) →
      ∃ p ∈ mol.zip molNew, mol_noise_floor < |p.1 - p.2| ∧
        mol_error mol molNew = |p.1 - p.2|) ∧
    (mol_error mol molNew ≤ rmol_gate → rmol_error mol molNew = 0) ∧
    (rmol_gate < mol_error mol molNew →
      (∀ p ∈ mol.zip molNew, mol_noise_floor < |p.1 - p.2| →
        |p.1 - p.2| / max |p.1| |p.2| ≤ rmol_error mol molNew) ∧
      ∃ p ∈ mol.zip molNew, mol_noise_floor < |p.1 - p.2| ∧
        rmol_error mol molNew = |p.1 - p.2| / max |p.1| |p.2|) ∧
    (∀ p ∈ T.zip Tnew, |p.1 - p.2| ≤ T_error T Tnew) ∧
    (T.zip Tnew ≠ [] → ∃ p ∈ T.zip Tnew, T_error T Tnew = |p.1 - p.2|) ∧
    (∀ p ∈ T.zip Tnew, |p.1 - p.2| / p.1 ≤ rT_error T Tnew) ∧
    (T.zip Tnew ≠ [] →
      ∃ p ∈ T.zip Tnew, rT_error T Tnew = |p.1 - p.2| / p.1) ∧
    (¬not_converged s mol molNew T Tnew ↔
      ((mol_error mol molNew < s.molar_tolerance ∨
        rmol_error mol molNew < s.relative_molar_tolerance) ∧
       (T_error T Tnew < s.temperature_tolerance ∨
        rT_error T Tnew < s.relative_temperature_tolerance))) := by
  refine ⟨?_, ?_, ?_, ?_, ?_, ?_, ?_, ?_, ?_, not_not⟩
  · intro p hp hgt
    have hmem : p ∈ positivePairs mol molNew := mem_positivePairs.2 ⟨hp, hgt⟩
    have hne : positivePairs mol molNew ≠ [] := List.ne_nil_of_mem hmem
    rw [mol_error, if_neg hne]
    exact listMax_map_le _ _ p hmem
  · intro hall
    have hemp : positivePairs mol molNew = [] := by
      rw [positivePairs, List.filter_eq_nil_iff]
      intro p hp
      simp [not_lt.2 (hall p hp)]
    rw [mol_error, if_pos hemp]
  · rintro ⟨p, hp, hgt⟩
    have hne : positivePairs mol molNew ≠ [] :=
      List.ne_nil_of_mem (mem_positivePairs.2 ⟨hp, hgt⟩)
    obtain ⟨q, hq, he⟩ :=
      listMax_map_attained (positivePairs mol molNew) (fun p => |p.1 - p.2|) hne
    rw [mem_positivePairs] at hq
    exact ⟨q, hq.1, hq.2, by rw [mol_error, if_neg hne]; exact he⟩
  · intro hle
    rw [rmol_error]
    split_ifs with h1 h2
    · rfl
    · exact absurd h2 (not_lt.2 hle)
    · rfl
  · intro hgt
    have hne : positivePairs mol molNew ≠ [] := by
      intro hemp
      rw [mol_error, if_pos hemp] at hgt
      have : (0 : ℚ) < rmol_gate := by norm_num [rmol_gate]
      linarith
    rw [rmol_error, if_neg hne, if_pos hgt]
    constructor
    · intro p hp hc
      exact listMax_map_le _ _ p (mem_positivePairs.2 ⟨hp, hc⟩)
    · obtain ⟨q, hq, he⟩ := listMax_map_attained (positivePairs mol molNew)
        (fun p => |p.1 - p.2| / max |p.1| |p.2|) hne
      rw [mem_positivePairs] at hq
      exact ⟨q, hq.1, hq.2, he⟩
  · intro p hp
    exact listMax_map_le _ _ p hp
  · intro hne
    exact listMax_map_attained _ _ hne
  · intro p hp
    exact listMax_map_le _ _ p hp
  · intro hne
    exact listMax_map_attained _ _ hne

/-- C1 witness: with previous flows `[0]`, new flows `[10]` and
temperatures `[1]`, `[2]`, the absolute flow error is attained at the one
noise-exceeding component and the relative temperature error is attained at
the one temperature pair. -/
theorem C1_witness :
    (∃ p ∈ ([(0 : ℚ)].zip [10]), mol_noise_floor < |p.1 - p.2| ∧
      mol_error [0] [10] = |p.1 - p.2|) ∧
    (∃ p ∈ ([(1 : ℚ)].zip [2]), rT_error [1] [2] = |p.1 - p.2| / p.1) := by
  have h := C1_theorem ⟨200, true, 1, 1 / 100, 1 / 10, 1 / 1000⟩
    [0] [10] [1] [2]
  exact ⟨h.2.2.1 ⟨(0, 10), by simp [List.zip], by norm_num [mol_noise_floor]⟩,
    h.2.2.2.2.2.2.2.2.1 (by simp [List.zip])⟩

/-! ## C2: iteration budget and strictness -/

/-- C2: the default iteration budget is 200 and strict mode is the default;
on an unconverged iterate whose counter has reached the budget, `_iter_run`
raises `RuntimeError` when `strict_convergence` is true and otherwise
reports the iterate as converged (flag false, last iterate accepted). -/
theorem C2_theorem :
    default_maxiter = 200 ∧ System_strict_convergence = true ∧
    ∀ (s : IterState) (iter : ℕ) (mol molNew T Tnew : List ℚ),
      infeasible mol = false →
      not_converged s (clip_negative_flows mol) molNew T Tnew →
      s.maxiter ≤ iter + 1 →
      (s.strict_convergence = true →
        iter_run s iter mol molNew T Tnew = (.runtimeError, iter + 1)) ∧
      (s.strict_convergence = false →
        iter_run s iter mol molNew T Tnew = (.iterate molNew false, iter + 1)) := by
  refine ⟨rfl, rfl, fun s iter mol molNew T Tnew hinf hnc hle =>
    ⟨fun hstrict => ?_, fun hstrict => ?_⟩⟩
  · simp [iter_run, hinf, hnc, hle, hstrict]
  · simp [iter_run, hinf, hnc, hle, hstrict]

/-- C2 witness: with budget 1 already reached and a clearly unconverged
flow iterate (`[0]` to `[10]` against molar tolerance 1), strict mode
raises and lenient mode reports convergence. -/
theorem C2_witness :
    iter_run ⟨1, true, 1, 1 / 100, 1 / 10, 1 / 1000⟩ 0 [0] [10] [300] [300] =
      (.runtimeError, 1) ∧
    iter_run ⟨1, false, 1, 1 / 100, 1 / 10, 1 / 1000⟩ 0 [0] [10] [300] [300] =
      (.iterate [10] false, 1) := by
  have hinf : infeasible [(0 : ℚ)] = false := by
    norm_num [infeasible, infeasible_flow_tolerance]
  have hnc : ∀ b : Bool, not_converged ⟨1, b, 1, 1 / 100, 1 / 10, 1 / 1000⟩
      (clip_negative_flows [0]) [10] [300] [300] := by
    intro b
    norm_num [not_converged, mol_error, rmol_error, positivePairs,
      mol_noise_floor, rmol_gate, clip_negative_flows, List.zip,
      List.zipWith, List.filter, listMax]
  constructor
  · exact (C2_theorem.2.2 ⟨1, true, 1, 1 / 100, 1 / 10, 1 / 1000⟩ 0
      [0] [10] [300] [300] hinf (hnc true) (by norm_num)).1 rfl
  · exact (C2_theorem.2.2 ⟨1, false, 1, 1 / 100, 1 / 10, 1 / 1000⟩ 0
      [0] [10] [300] [300] hinf (hnc false) (by norm_num)).2 rfl

/-! ## C4: solve_TDMA correctness -/

theorem solve_TDMA_last (a b c d : ℕ → ℚ) (n : ℕ) :
    solve_TDMA a b c d n n = fwdD a b c d n / fwdB a b c n := by
  rw [solve_TDMA, Nat.sub_self]
  simp only [backXAux]

theorem solve_TDMA_step (a b c d : ℕ → ℚ) (n i : ℕ) (h : i < n) :
    solve_TDMA a b c d n i =
      (fwdD a b c d i - c i * solve_TDMA a b c d n (i + 1)) /
        fwdB a b c i := by
  rw [solve_TDMA, solve_TDMA, show n - i = (n - (i + 1)) + 1 by omega]
  simp only [backXAux]
  rw [show n - (n - (i + 1) + 1) = i by omega]

theorem solve_TDMA_backsub (a b c d : ℕ → ℚ) (n : ℕ)
    (hpiv : ∀ i, i ≤ n → fwdB a b c i ≠ 0) :
    ∀ i, i ≤ n →
      fwdB a b c i * solve_TDMA a b c d n i +
        (if i = n then 0 else c i * solve_TDMA a b c d n (i + 1)) =
      fwdD a b c d i := by
  intro i hi
  rcases eq_or_lt_of_le hi with rfl | hlt
  · rw [if_pos rfl, solve_TDMA_last]
    have hp := hpiv i le_rfl
    field_simp
  · rw [if_neg (Nat.ne_of_lt hlt), solve_TDMA_step a b c d n i hlt]
    have hp := hpiv i (le_of_lt hlt)
    field_simp

theorem rows_forward_elim (a b c d : ℕ → ℚ) (n : ℕ)
    (hpiv : ∀ i, i ≤ n → fwdB a b c i ≠ 0)
    (y : ℕ → ℚ) (hy : ∀ i, i ≤ n → rowEq a b c d n y i) :
    ∀ i, i ≤ n →
      fwdB a b c i * y i + (if i = n then 0 else c i * y (i + 1)) =
        fwdD a b c d i := by
  intro i
  induction i with
  | zero =>
    intro h0
    have hrow := hy 0 h0
    simp [rowEq] at hrow
    simp only [fwdB, fwdD]
    simpa using hrow
  | succ j ih =>
    intro hsucc
    have hj : j < n := by omega
    have H1 := ih (le_of_lt hj)
    rw [if_neg (Nat.ne_of_lt hj)] at H1
    have Hrow := hy (j + 1) hsucc
    simp only [rowEq, Nat.add_sub_cancel,
      if_neg (Nat.succ_ne_zero j)] at Hrow
    have hp := hpiv j (le_of_lt hj)
    have key := div_mul_cancel₀ (a j) hp
    have e1 : fwdB a b c (j + 1) =
        b (j + 1) - a j / fwdB a b c j * c j := rfl
    have e2 : fwdD a b c d (j + 1) =
        d (j + 1) - a j / fwdB a b c j * fwdD a b c d j := rfl
    rw [e1, e2]
    linear_combination Hrow - a j / fwdB a b c j * H1 + y j * key

/-- C4: with nonzero Thomas pivots, `solve_TDMA` returns a vector
satisfying every row of the tridiagonal system (coefficients meaning the
input arrays, out-of-range terms zero), and that vector is the unique such
solution. -/
theorem C4_theorem (a b c d : ℕ → ℚ) (n : ℕ)
    (hpiv : ∀ i, i ≤ n → fwdB a b c i ≠ 0) :
    (∀ i, i ≤ n → rowEq a b c d n (solve_TDMA a b c d n) i) ∧
    (∀ y : ℕ → ℚ, (∀ i, i ≤ n → rowEq a b c d n y i) →
      ∀ i, i ≤ n → y i = solve_TDMA a b c d n i) := by
  constructor
  · intro i hi
    cases i with
    | zero =>
      have h0 := solve_TDMA_backsub a b c d n hpiv 0 hi
      simp only [fwdB, fwdD] at h0
      simp only [rowEq]
      simpa using h0
    | succ j =>
      have hj : j < n := by omega
      have H1 := solve_TDMA_backsub a b c d n hpiv j (le_of_lt hj)
      rw [if_neg (Nat.ne_of_lt hj)] at H1
      have H2 := solve_TDMA_backsub a b c d n hpiv (j + 1) hi
      have hp := hpiv j (le_of_lt hj)
      have key := div_mul_cancel₀ (a j) hp
      have e1 : fwdB a b c (j + 1) =
          b (j + 1) - a j / fwdB a b c j * c j := rfl
      have e2 : fwdD a b c d (j + 1) =
          d (j + 1) - a j / fwdB a b c j * fwdD a b c d j := rfl
      rw [e1, e2] at H2
      simp only [rowEq, Nat.add_sub_cancel, if_neg (Nat.succ_ne_zero j)]
      linear_combination H2 + a j / fwdB a b c j * H1 -
        solve_TDMA a b c d n j * key
  · intro y hy i hi
    have hel := rows_forward_elim a b c d n hpiv y hy
    have hback : ∀ k, k ≤ n → y (n - k) = solve_TDMA a b c d n (n - k) := by
      intro k
      induction k with
      | zero =>
        intro _
        have h := hel n le_rfl
        rw [if_pos rfl, add_zero] at h
        have hp := hpiv n le_rfl
        rw [Nat.sub_zero, solve_TDMA_last, eq_div_iff hp]
        linear_combination h
      | succ k ih =>
        intro hk1
        have ihh := ih (by omega)
        have hel_i := hel (n - (k + 1)) (by omega)
        rw [if_neg (by omega : n - (k + 1) ≠ n),
          show n - (k + 1) + 1 = n - k by omega, ihh] at hel_i
        have hstep := solve_TDMA_step a b c d n (n - (k + 1)) (by omega)
        rw [show n - (k + 1) + 1 = n - k by omega] at hstep
        have hp := hpiv (n - (k + 1)) (by omega)
        rw [hstep, eq_div_iff hp]
        linear_combination hel_i
    have h := hback (n - i) (by omega)
    rwa [show n - (n - i) = i by omega] at h

/-- C4 witness: the 2-equation system with sub-diagonal `1`, diagonal `2`,
super-diagonal `1` and right-hand side `3` has nonzero pivots, and
`solve_TDMA` satisfies both rows. -/
theorem C4_witness :
    (∀ i, i ≤ 1 → fwdB (fun _ => 1) (fun _ => 2) (fun _ => 1) i ≠ 0) ∧
    rowEq (fun _ => 1) (fun _ => 2) (fun _ => 1) (fun _ => 3) 1
      (solve_TDMA (fun _ => 1) (fun _ => 2) (fun _ => 1) (fun _ => 3) 1) 0 ∧
    rowEq (fun _ => 1) (fun _ => 2) (fun _ => 1) (fun _ => 3) 1
      (solve_TDMA (fun _ => 1) (fun _ => 2) (fun _ => 1) (fun _ => 3) 1) 1 := by
  have hpiv : ∀ i, i ≤ 1 →
      fwdB (fun _ => 1) (fun _ => 2) (fun _ => 1) i ≠ 0 := by
    intro i hi
    interval_cases i <;> norm_num [fwdB]
  exact ⟨hpiv,
    (C4_theorem (fun _ => 1) (fun _ => 2) (fun _ => 1) (fun _ => 3) 1
      hpiv).1 0 (by norm_num),
    (C4_theorem (fun _ => 1) (fun _ => 2) (fun _ => 1) (fun _ => 3) 1
      hpiv).1 1 le_rfl⟩

/-! ## C5: solve_TDMA_2D_careful versus solve_TDMA -/

theorem clipNeg_nonneg (v : ℚ) : 0 ≤ clipNeg v := by
  rw [clipNeg]
  split_ifs with h
  · exact le_refl 0
  · exact le_of_not_lt h

theorem clipNeg_of_nonneg {v : ℚ} (h : 0 ≤ v) : clipNeg v = v := by
  rw [clipNeg, if_neg (not_lt.2 h)]

theorem backXAux_eq_solve (a b c d : ℕ → ℚ) (n k : ℕ) (hk : k ≤ n) :
    backXAux a b c d n k = solve_TDMA a b c d n (n - k) := by
  rw [solve_TDMA, show n - (n - k) = k by omega]

theorem backXCarefulAux_eq (a b c d : ℕ → ℚ) (n : ℕ)
    (h0 : ∀ j, j ≤ n → 0 ≤ solve_TDMA a b c d n j) :
    ∀ k, k ≤ n → backXCarefulAux a b c d n k = backXAux a b c d n k := by
  intro k
  induction k with
  | zero =>
    intro hk
    have hnn : 0 ≤ backXAux a b c d n 0 := by
      rw [backXAux_eq_solve a b c d n 0 hk]
      exact h0 _ (by omega)
    simp only [backXCarefulAux, backXAux] at hnn ⊢
    exact clipNeg_of_nonneg hnn
  | succ k ih =>
    intro hk
    have hnn : 0 ≤ backXAux a b c d n (k + 1) := by
      rw [backXAux_eq_solve a b c d n (k + 1) hk]
      exact h0 _ (by omega)
    simp only [backXCarefulAux, backXAux, ih (by omega)] at hnn ⊢
    exact clipNeg_of_nonneg hnn

/-- C5 counterexample: on the 1-equation system `1 * x = -1` no diagonal
entry is zero or infinite (the pivot is `1`), yet `solve_TDMA_2D_careful`
returns `0` (it clips the negative back-substituted value) while
`solve_TDMA` returns the solution `-1`. -/
theorem C5_counterexample :
    fwdB (fun _ => 0) (fun _ => 1) (fun _ => 0) 0 = 1 ∧
    solve_TDMA (fun _ => 0) (fun _ => 1) (fun _ => 0) (fun _ => -1) 0 0 =
      -1 ∧
    solve_TDMA_2D_careful (fun _ => 0) (fun _ => 1) (fun _ => 0)
      (fun _ => -1) (fun _ => 0) 0 0 = 0 := by
  refine ⟨rfl, ?_, ?_⟩
  · norm_num [solve_TDMA, backXAux, fwdB, fwdD]
  · norm_num [solve_TDMA_2D_careful, backXCarefulAux, fwdB, fwdD, clipNeg]

/-- C5 (amended): on inputs with nonzero (finite) Thomas pivots,
`solve_TDMA_2D_careful` always returns entrywise nonnegative values, and it
returns the same result as `solve_TDMA` whenever all of `solve_TDMA`'s
back-substituted values are nonnegative (each computed value is clipped at
zero, which is also the behaviour on degenerate rows). -/
theorem C5_theorem (a b c d ab_fallback : ℕ → ℚ) (n : ℕ)
    (hpiv : ∀ i, i ≤ n → fwdB a b c i ≠ 0) :
    (∀ i, i ≤ n →
      0 ≤ solve_TDMA_2D_careful a b c d ab_fallback n i) ∧
    ((∀ j, j ≤ n → 0 ≤ solve_TDMA a b c d n j) →
      ∀ i, i ≤ n →
        solve_TDMA_2D_careful a b c d ab_fallback n i =
          solve_TDMA a b c d n i) := by
  constructor
  · intro i _
    rw [solve_TDMA_2D_careful]
    cases hnk : n - i with
    | zero => simp only [backXCarefulAux]; exact clipNeg_nonneg _
    | succ k => simp only [backXCarefulAux]; exact clipNeg_nonneg _
  · intro h0 i hi
    rw [solve_TDMA_2D_careful,
      backXCarefulAux_eq a b c d n h0 (n - i) (by omega),
      backXAux_eq_solve a b c d n (n - i) (by omega),
      show n - (n - i) = i by omega]

/-- C5 witness: on the 1-equation system `1 * x = 2` the pivots are nonzero
and the ordinary solution is nonnegative, so the careful solver agrees with
`solve_TDMA` and its output is nonnegative. -/
theorem C5_witness :
    (0 : ℚ) ≤ solve_TDMA_2D_careful (fun _ => 0) (fun _ => 1) (fun _ => 0)
      (fun _ => 2) (fun _ => 0) 0 0 ∧
    solve_TDMA_2D_careful (fun _ => 0) (fun _ => 1) (fun _ => 0)
      (fun _ => 2) (fun _ => 0) 0 0 =
      solve_TDMA (fun _ => 0) (fun _ => 1) (fun _ => 0) (fun _ => 2) 0 0 := by
  have hpiv : ∀ i, i ≤ 0 →
      fwdB (fun _ => 0) (fun _ => 1) (fun _ => 0) i ≠ 0 := by
    intro i hi
    interval_cases i
    norm_num [fwdB]
  have h0 : ∀ j, j ≤ 0 →
      (0 : ℚ) ≤ solve_TDMA (fun _ => 0) (fun _ => 1) (fun _ => 0)
        (fun _ => 2) 0 j := by
    intro j hj
    interval_cases j
    norm_num [solve_TDMA, backXAux, fwdB, fwdD]
  exact ⟨(C5_theorem (fun _ => 0) (fun _ => 1) (fun _ => 0) (fun _ => 2)
      (fun _ => 0) 0 hpiv).1 0 le_rfl,
    (C5_theorem (fun _ => 0) (fun _ => 1) (fun _ => 0) (fun _ => 2)
      (fun _ => 0) 0 hpiv).2 h0 0 le_rfl⟩

end BioSteam
